import Mathlib

/-!
Verification of the CANViewer repository's CAN-frame codec and logger
(`src/canUsbLogger.js`, the `CanUsbLogger` class).  JavaScript numbers that
the code subjects to bitwise operators are modelled as exact integers with
the 32-bit two's-complement conversions written out (`toInt32`, `toUint32`);
`DataView.setUint8`/`setUint32` truncation is `% 256` / `% 2^32`; clock reads
(`performance.now()`, `Date`) are passed in explicitly by the environment,
`performance.now()` values as exact rationals (milliseconds).
-/

namespace CanViewer

/-! ### JavaScript primitives -/

/-- Whitespace as matched by `\s` / `trim()` (the ASCII part; the ids and
data strings handled by the logger are ASCII). -/
def isJsWs (c : Char) : Bool :=
  c = ' ' || c = '\t' || c = '\n' || c = '\r' || c = Char.ofNat 11 || c = Char.ofNat 12

/-- Hex digit test for `parseInt(_, 16)`. -/
def isHexDigitChar (c : Char) : Bool :=
  ('0' ≤ c && c ≤ '9') || ('a' ≤ c && c ≤ 'f') || ('A' ≤ c && c ≤ 'F')

/-- Value of a hex digit. -/
def hexDigitVal (c : Char) : Nat :=
  if '0' ≤ c && c ≤ '9' then c.toNat - 48
  else if 'a' ≤ c && c ≤ 'f' then c.toNat - 87
  else c.toNat - 55

/-- JavaScript `parseInt(s, 16)`: skip leading whitespace, optional sign,
optional `0x`/`0X` prefix, then the longest prefix of hex digits; `none`
models `NaN` (no digits).  Values are exact (the float rounding JS applies
beyond 2^53 is not modelled; every id the program handles is far smaller). -/
def jsParseIntHex (s : String) : Option Int :=
  let cs := s.data.dropWhile isJsWs
  let signed : Int × List Char :=
    match cs with
    | '-' :: r => (-1, r)
    | '+' :: r => (1, r)
    | _ => (1, cs)
  let body : List Char :=
    match signed.2 with
    | '0' :: 'x' :: r => r
    | '0' :: 'X' :: r => r
    | _ => signed.2
  let digits := body.takeWhile isHexDigitChar
  if digits.isEmpty then none
  else some (signed.1 * (Int.ofNat (digits.foldl (fun a c => a * 16 + hexDigitVal c) 0)))

/-- JavaScript `toUpperCase()` (ASCII). -/
def toUpperJs (s : String) : String := ⟨s.data.map Char.toUpper⟩

/-- Lowercase hex digit, as produced by `Number.prototype.toString(16)`. -/
def hexDigitChar (n : Nat) : Char :=
  if n < 10 then Char.ofNat (48 + n) else Char.ofNat (87 + n)

/-- Hex digits of `n`, most significant first; `fuel ≥ n` suffices. -/
def natToHexAux : Nat → Nat → List Char
  | 0, _ => []
  | _ + 1, 0 => []
  | fuel + 1, n => natToHexAux fuel (n / 16) ++ [hexDigitChar (n % 16)]

/-- JavaScript `n.toString(16)` for a non-negative integer. -/
def natToHex (n : Nat) : String :=
  if n = 0 then "0" else ⟨natToHexAux n n⟩

/-- JavaScript `n.toString(16)` for an integer (negative values render as a
sign followed by the magnitude's digits). -/
def jsToStringHex (v : Int) : String :=
  if v < 0 then "-" ++ natToHex (-v).toNat else natToHex v.toNat

/-- JavaScript `String.prototype.padStart(w, c)`. -/
def padStart (s : String) (w : Nat) (c : Char) : String :=
  ⟨List.replicate (w - s.data.length) c ++ s.data⟩

/-- JavaScript `ToUint32` on an exact integer. -/
def toUint32 (v : Int) : Nat := (v % (4294967296 : Int)).toNat

/-- JavaScript `ToInt32` on an exact integer. -/
def toInt32 (v : Int) : Int :=
  let m := v % (4294967296 : Int)
  if m < 2147483648 then m else m - 4294967296

/-- JavaScript `ToUint8` (what `DataView.setUint8` stores). -/
def toUint8 (v : Int) : Nat := (v % (256 : Int)).toNat

/-- JavaScript bitwise `a & b` on exact integers (both operands pass through
`ToInt32`; the bit pattern of the result re-read as int32). -/
def jsAnd (a b : Int) : Int :=
  toInt32 ((toUint32 a &&& toUint32 b : Nat) : Int)

/-- JavaScript bitwise `a | b` on exact integers. -/
def jsOr (a b : Int) : Int :=
  toInt32 ((toUint32 a ||| toUint32 b : Nat) : Int)

/-! ### Frame codec -/

/-- The id actually written into bytes 0..3 of an outgoing report
(`sendCanMessage`, src/canUsbLogger.js:335-339, at the unsigned level):
`rawId &= 0x7FF` for `'STD'`, else `rawId = (rawId & 0x1FFFFFFF) | 0x80000000`. -/
def maskCanId (ty : String) (id : Nat) : Nat :=
  if ty = "STD" then id &&& 0x7FF else (id &&& 0x1FFFFFFF) ||| 0x80000000

/-- Little-endian bytes of a 32-bit value (`DataView.setUint32(0, _, true)`). -/
def u32le (r : Nat) : List Nat :=
  [r % 256, r / 256 % 256, r / 65536 % 256, r / 16777216 % 256]

/-- The wire buffer built by `sendCanMessage` (src/canUsbLogger.js:350-354):
masked id little-endian in bytes 0..3, `dlc = data.length` in byte 4
(`setUint8` truncates mod 256), the data bytes verbatim from byte 5. -/
def encodeCanFrame (ty : String) (id : Nat) (data : List Nat) : List Nat :=
  u32le (maskCanId ty id) ++ [data.length % 256] ++ data.map (· % 256)

/-- Byte `i` of a report (`DataView.getUint8(i)`); reports carry u8 values. -/
def byteAt (report : List Nat) (i : Nat) : Nat := report.getD i 0

/-- What `listenToDevice` (src/canUsbLogger.js:300-311) extracts from one
inbound report. -/
structure DecodedFrame where
  raw : Nat
  dlc : Nat
  msgType : String
  data : List Nat
deriving DecidableEq

/-- `view.getUint32(0, true)`: the first four report bytes little-endian. -/
def rawIdOf (report : List Nat) : Nat :=
  byteAt report 0 + 256 * byteAt report 1 + 65536 * byteAt report 2 +
    16777216 * byteAt report 3

/-- The parse performed by `listenToDevice` on a report of at least 5 bytes:
`raw = getUint32(0, true)`, `dlc = getUint8(4)`,
`count = min(dlc, byteLength - 5)`, data bytes `5 .. 5+count`,
type `'EXT'` when bit 31 of `raw` is set, else `'STD'`.  Reports shorter
than 5 bytes are skipped by the caller (`none`). -/
def decodeReport (report : List Nat) : Option DecodedFrame :=
  if 5 ≤ report.length then
    some { raw := rawIdOf report
           dlc := byteAt report 4
           msgType := if rawIdOf report &&& 0x80000000 = 0 then "STD" else "EXT"
           data := (report.drop 5).take (min (byteAt report 4) (report.length - 5)) }
  else none

/-! ### Bitwise helper lemmas -/

theorem lor_two_pow_of_lt {a k : Nat} (h : a < 2 ^ k) : a ||| 2 ^ k = a + 2 ^ k := by
  apply Nat.eq_of_testBit_eq
  intro i
  rcases Nat.lt_trichotomy i k with hik | hik | hik
  · rw [Nat.testBit_or, Nat.testBit_two_pow_of_ne (by omega), Bool.or_false,
      Nat.add_comm, Nat.testBit_two_pow_add_gt hik]
  · subst hik
    rw [Nat.testBit_or, Nat.testBit_two_pow_self, Bool.or_true, Nat.add_comm,
      Nat.testBit_two_pow_add_eq, Nat.testBit_lt_two_pow h]
    rfl
  · have hk2 : 2 ^ (k + 1) ≤ 2 ^ i := Nat.pow_le_pow_right (by omega) (by omega)
    have hk3 : 2 ^ (k + 1) = 2 * 2 ^ k := by rw [Nat.pow_succ]; ring
    have ha : a < 2 ^ i := by omega
    have hb : a + 2 ^ k < 2 ^ i := by omega
    rw [Nat.testBit_or, Nat.testBit_two_pow_of_ne (by omega), Bool.or_false,
      Nat.testBit_lt_two_pow ha, Nat.testBit_lt_two_pow hb]

theorem and_two_pow_of_lt {a k : Nat} (h : a < 2 ^ k) : a &&& 2 ^ k = 0 := by
  rw [Nat.and_two_pow, Nat.testBit_lt_two_pow h]
  simp only [Bool.toNat_false, Nat.zero_mul]

theorem add_two_pow_and_self {a k : Nat} (h : a < 2 ^ k) :
    (a + 2 ^ k) &&& 2 ^ k = 2 ^ k := by
  rw [Nat.and_two_pow, Nat.add_comm, Nat.testBit_two_pow_add_eq,
    Nat.testBit_lt_two_pow h]
  simp only [Bool.not_false, Bool.toNat_true, Nat.one_mul]

theorem maskCanId_std (id : Nat) : maskCanId "STD" id = id % 2048 := by
  unfold maskCanId
  rw [if_pos rfl, show (0x7FF : Nat) = 2 ^ 11 - 1 from by norm_num,
    Nat.and_pow_two_sub_one_eq_mod]

theorem maskCanId_ext (id : Nat) : maskCanId "EXT" id = id % 536870912 + 2147483648 := by
  have hlt : id % 536870912 < 2 ^ 31 := by
    have := Nat.mod_lt id (show 0 < 536870912 from by norm_num)
    omega
  unfold maskCanId
  rw [if_neg (by decide), show (0x1FFFFFFF : Nat) = 2 ^ 29 - 1 from by norm_num,
    Nat.and_pow_two_sub_one_eq_mod,
    show (0x80000000 : Nat) = 2 ^ 31 from by norm_num,
    show (2 : Nat) ^ 29 = 536870912 from by norm_num, lor_two_pow_of_lt hlt]

theorem map_mod_256_of_bytes {data : List Nat} (hdata : ∀ b ∈ data, b < 256) :
    data.map (· % 256) = data := by
  have h : data.map (· % 256) = data.map id :=
    List.map_congr_left (fun b hb => Nat.mod_eq_of_lt (hdata b hb))
  simpa using h

theorem decode_encode_core (r : Nat) (hr : r < 4294967296) (data : List Nat)
    (hdata : ∀ b ∈ data, b < 256) (hlen : data.length < 256) :
    decodeReport (u32le r ++ [data.length % 256] ++ data.map (· % 256)) =
      some ⟨r, data.length, if r &&& 0x80000000 = 0 then "STD" else "EXT", data⟩ := by
  have hmap : data.map (· % 256) = data := map_mod_256_of_bytes hdata
  have hdlc : data.length % 256 = data.length := Nat.mod_eq_of_lt hlen
  have hlist : u32le r ++ [data.length % 256] ++ data.map (· % 256) =
      r % 256 :: r / 256 % 256 :: r / 65536 % 256 :: r / 16777216 % 256 ::
        data.length :: data := by
    simp [u32le, hmap, hdlc]
  rw [hlist]
  have hlenlist :
      (r % 256 :: r / 256 % 256 :: r / 65536 % 256 :: r / 16777216 % 256 ::
        data.length :: data).length = 5 + data.length := by
    simp
    omega
  have hraw : rawIdOf (r % 256 :: r / 256 % 256 :: r / 65536 % 256 ::
      r / 16777216 % 256 :: data.length :: data) = r := by
    simp only [rawIdOf, byteAt, List.getD_cons_zero, List.getD_cons_succ]
    omega
  rw [decodeReport, if_pos (by rw [hlenlist]; omega)]
  rw [Option.some.injEq]
  refine DecodedFrame.mk.injEq .. ▸ ⟨hraw, ?_, by rw [hraw], ?_⟩
  · simp [byteAt]
  · simp only [byteAt, List.getD_cons_zero, List.getD_cons_succ, List.drop, hlenlist]
    rw [show 5 + data.length - 5 = data.length from by omega, Nat.min_self,
      List.take_length]

/-- C1: encoding a Standard or Extended frame (masked id with the Extended
flag in bit 31, little-endian, `dlc = data.length`, data verbatim) and then
decoding the resulting buffer reproduces the same kind, `dlc = data.length`,
identical data, and an id that agrees with the original under the kind's
bit-width mask. -/
theorem c1_encode_decode (ty : String) (id : Nat) (data : List Nat)
    (hty : ty = "STD" ∨ ty = "EXT") (hdata : ∀ b ∈ data, b < 256)
    (hlen : data.length < 256) :
    decodeReport (encodeCanFrame ty id data) =
      some ⟨maskCanId ty id, data.length, ty, data⟩ ∧
    maskCanId ty id &&& (if ty = "STD" then 0x7FF else 0x1FFFFFFF) =
      id &&& (if ty = "STD" then 0x7FF else 0x1FFFFFFF) := by
  rcases hty with h | h <;> subst h
  · have hr : maskCanId "STD" id = id % 2048 := maskCanId_std id
    have hlt : id % 2048 < 4294967296 := by omega
    have htop : id % 2048 &&& 0x80000000 = 0 := by
      rw [show (0x80000000 : Nat) = 2 ^ 31 from by norm_num]
      exact and_two_pow_of_lt (by omega)
    constructor
    · rw [encodeCanFrame, hr, decode_encode_core _ hlt data hdata hlen, htop]
      simp [hr]
    · rw [if_pos rfl, hr, show (0x7FF : Nat) = 2 ^ 11 - 1 from by norm_num,
        Nat.and_pow_two_sub_one_eq_mod, Nat.and_pow_two_sub_one_eq_mod]
      omega
  · have hr : maskCanId "EXT" id = id % 536870912 + 2147483648 := maskCanId_ext id
    have hlt : id % 536870912 + 2147483648 < 4294967296 := by omega
    have htop : (id % 536870912 + 2147483648) &&& 0x80000000 = 2147483648 := by
      rw [show (0x80000000 : Nat) = 2 ^ 31 from by norm_num]
      exact add_two_pow_and_self (by omega)
    constructor
    · rw [encodeCanFrame, hr, decode_encode_core _ hlt data hdata hlen, htop]
      simp [hr]
    · rw [if_neg (by decide), hr, show (0x1FFFFFFF : Nat) = 2 ^ 29 - 1 from by norm_num,
        Nat.and_pow_two_sub_one_eq_mod, Nat.and_pow_two_sub_one_eq_mod]
      omega

/-- Witness for C1 at a concrete Extended frame. -/
theorem c1_encode_decode_witness :
    decodeReport (encodeCanFrame "EXT" 305419896 [17, 34]) =
      some ⟨maskCanId "EXT" 305419896, 2, "EXT", [17, 34]⟩ ∧
    maskCanId "EXT" 305419896 &&& 0x1FFFFFFF = 305419896 &&& 0x1FFFFFFF := by
  have h := c1_encode_decode "EXT" 305419896 [17, 34] (Or.inr rfl)
    (by decide) (by decide)
  simpa using h

/-- C5: decoding reads `min(dlc, report.length - 5)` data bytes, so the data
never extends past the buffer; a 5-byte report with `dlc = 8` decodes to an
empty data sequence. -/
theorem c5_decode_clamped :
    (∀ report f, decodeReport report = some f →
      f.data.length = min f.dlc (report.length - 5) ∧
      5 + f.data.length ≤ report.length) ∧
    decodeReport [0, 0, 0, 0, 8] = some ⟨0, 8, "STD", []⟩ := by
  constructor
  · intro report f hf
    rw [decodeReport] at hf
    split at hf
    case isTrue h5 =>
      rw [Option.some.injEq] at hf
      subst hf
      have hmin : min (byteAt report 4) (report.length - 5) ≤ report.length - 5 :=
        Nat.min_le_right _ _
      constructor
      · simp only [List.length_take, List.length_drop]
        rw [Nat.min_assoc, Nat.min_self]
      · simp only [List.length_take, List.length_drop]
        rw [Nat.min_assoc, Nat.min_self]
        omega
    case isFalse h5 => exact absurd hf (by simp)
  · decide

/-! ### Byte-string parsing (`parseHexString`, src/canUsbLogger.js:115-123) -/

theorem length_dropWhile_le (p : α → Bool) (l : List α) :
    (l.dropWhile p).length ≤ l.length :=
  (List.dropWhile_sublist p).length_le

/-- JavaScript `trim()` (ASCII whitespace). -/
def jsTrim (s : String) : String :=
  ⟨((s.data.dropWhile isJsWs).reverse.dropWhile isJsWs).reverse⟩

/-- `String.prototype.split(/\s+/)` on a list of characters: the (possibly
empty) chunks between maximal whitespace runs, written with explicit fuel
(the input length strictly decreases, so `fuel = cs.length` suffices and the
fuel-exhausted arm is unreachable).  `parseHexString` applies it only after
`trim()`, so its input never begins with whitespace (a leading run, which
would contribute an initial empty chunk, cannot occur there). -/
def splitWsAux : Nat → List Char → List (List Char)
  | 0, cs => [cs.takeWhile (fun x => !isJsWs x)]
  | fuel + 1, cs =>
    match cs.dropWhile (fun x => !isJsWs x) with
    | [] => [cs.takeWhile (fun x => !isJsWs x)]
    | _ :: r => cs.takeWhile (fun x => !isJsWs x) :: splitWsAux fuel (r.dropWhile isJsWs)

/-- `split(/\s+/)`. -/
def splitWs (cs : List Char) : List (List Char) :=
  splitWsAux cs.length cs

/-- The tokens `input.trim().split(/\s+/)` produces. -/
def hexTokens (input : String) : List String :=
  (splitWs (jsTrim input).data).map (fun l => (⟨l⟩ : String))

/-- The `map` body of `parseHexString`: each token through `parseInt(_, 16)`;
the first token that parses to `NaN` aborts the whole call (the JS code
throws `parseHexString: invalid byte "<token>"`; the error value here is
that token). -/
def parseTokens : List String → Except String (List Int)
  | [] => .ok []
  | t :: ts =>
    match jsParseIntHex t with
    | none => .error t
    | some v =>
      match parseTokens ts with
      | .error e => .error e
      | .ok vs => .ok (v :: vs)

/-- `parseHexString` (src/canUsbLogger.js:115-123): trim, split on runs of
whitespace, parse every chunk as hex; any `NaN` chunk throws and no byte
list is produced. -/
def parseHexString (input : String) : Except String (List Int) :=
  parseTokens (hexTokens input)

/-! ### Display formatting and the logger state -/

/-- `formatCanId` (src/canUsbLogger.js:95-107): `SYS` ids pass through
uppercased; otherwise the id is parsed as hex (0 on `NaN`), masked with
JavaScript `&` to 11 bits for `'STD'` and to 29 bits for every other type,
and rendered as zero-padded uppercase hex of width 3 (`'STD'`) or 8. -/
def formatCanId (idHex ty : String) : String :=
  if ty = "SYS" then toUpperJs idHex
  else
    toUpperJs (padStart (jsToStringHex
      (jsAnd ((jsParseIntHex idHex).getD 0) (if ty = "STD" then 0x7FF else 0x1FFFFFFF)))
      (if ty = "STD" then 3 else 8) '0')

/-- One row of the logger (the object literal built by `logCanMessage`,
src/canUsbLogger.js:247-254).  `count` models the JS `count` property, which
is absent (`0` here) until the entry is inserted into the unique map. -/
structure LogEntry where
  timestamp : String
  offset : Rat
  id : String
  type : String
  dlc : Nat
  data : String
  count : Nat
deriving DecidableEq

/-- The mutable state of `CanUsbLogger` that `logCanMessage` touches.
JavaScript aliasing is modelled explicitly: every entry object ever created
is pushed onto `fullLog`, and `uniqueMap` stores, per key, the *index* into
`fullLog` of the shared entry object (`uniqueMap.set(key, entry)` stores a
reference to the very object just pushed), in insertion order. -/
structure LoggerState where
  fullLog : List LogEntry
  startTimeMs : Option Rat
  uniqueMap : List (String × Nat)
deriving DecidableEq

/-- The state after `new CanUsbLogger()`. -/
def initState : LoggerState := ⟨[], none, []⟩

/-- In-place update of the list element at index `i` (mutation of the object
both `fullLog` and `uniqueMap` reference). -/
def updAt : List α → Nat → (α → α) → List α
  | [], _, _ => []
  | x :: xs, 0, f => f x :: xs
  | x :: xs, n + 1, f => x :: updAt xs n f

/-- `Map.prototype.get` on the insertion-ordered key/index association. -/
def lookupKey (m : List (String × Nat)) (k : String) : Option Nat :=
  (m.find? (fun p => p.1 == k)).map (·.2)

/-- `logCanMessage` (src/canUsbLogger.js:244-273).  `ts` is the formatted
wall-clock timestamp and `now` the `performance.now()` reading for this call
(the two `performance.now()` reads inside one call are modelled as one
instant).  A new entry is always pushed onto the full log; if its
`id|type` key is already in the unique map, the referenced (aliased) entry
is mutated in place (`count++`, new `timestamp`/`dlc`/`data`), otherwise the
new entry itself gets `count = 1` and is inserted at the end of the map. -/
def bumpEntry (ts : String) (dlc : Nat) (d : String) (e : LogEntry) : LogEntry :=
  { e with count := e.count + 1, timestamp := ts, dlc := dlc, data := d }

def logCanMessage (ts : String) (now : Rat) (idHex ty : String) (dlc : Nat)
    (dataBytes : List String) (st : LoggerState) : LoggerState :=
  let start := if st.fullLog.length = 0 then now else st.startTimeMs.getD now
  let entry : LogEntry :=
    { timestamp := ts
      offset := (now - start) / 1000
      id := formatCanId idHex ty
      type := ty
      dlc := dlc
      data := String.intercalate " " dataBytes
      count := 0 }
  match lookupKey st.uniqueMap (entry.id ++ "|" ++ ty) with
  | some j =>
    { fullLog := updAt (st.fullLog ++ [entry]) j (bumpEntry ts dlc entry.data)
      startTimeMs := some start
      uniqueMap := st.uniqueMap }
  | none =>
    { fullLog := st.fullLog ++ [{ entry with count := 1 }]
      startTimeMs := some start
      uniqueMap := st.uniqueMap ++ [(entry.id ++ "|" ++ ty, st.fullLog.length)] }

/-- The unique table as displayed: the entry objects the map references, in
insertion order. -/
def uniqueEntries (st : LoggerState) : List LogEntry :=
  st.uniqueMap.filterMap (fun p => st.fullLog.get? p.2)

/-! ### The send path (`sendCanMessage`, src/canUsbLogger.js:322-368, and
`sendCanMessageFromTemplate`, src/canUsbLogger.js:444-492) -/

/-- The error message `parseHexString` throws for an invalid chunk. -/
def parseErrMsg (tok : String) : String :=
  "parseHexString: invalid byte \"" ++ tok ++ "\""

/-- `err.message || 'Send Error'` on the transport-failure path of
`sendCanMessage` (an empty message is falsy in JS). -/
def sendErrorMsg (errMsg : String) : String :=
  if errMsg = "" then "Send Error" else errMsg

/-- The `rawId` a send computes (src/canUsbLogger.js:329-339): parse the id
input as hex (0 on `NaN`); `rawId &= 0x7FF` when the selected type is
`'STD'`, otherwise `rawId = (rawId & 0x1FFFFFFF) | 0x80000000` (a negative
int32 in JS, bit 31 being set). -/
def sendRawId (idInput ty : String) : Int :=
  if ty = "STD" then jsAnd ((jsParseIntHex idInput).getD 0) 0x7FF
  else jsOr (jsAnd ((jsParseIntHex idInput).getD 0) 0x1FFFFFFF) 0x80000000

/-- The `ArrayBuffer` a send fills (src/canUsbLogger.js:350-354). -/
def sendBuffer (rawId : Int) (dataBytes : List Int) : List Nat :=
  u32le (toUint32 rawId) ++ [dataBytes.length % 256] ++ dataBytes.map toUint8

/-- `sendCanMessage`.  `conn` models `this.usbDevice` being non-null,
`writeOk` the outcome of `transferOut`, `errMsg` the transport error's
`message`, `ts`/`now` the clocks.  Returns the new state and the buffer
handed to `transferOut` (`none` when no transfer was attempted). -/
def sendCanMessage (conn : Bool) (idInput dataInput ty : String) (writeOk : Bool)
    (errMsg ts : String) (now : Rat) (st : LoggerState) :
    LoggerState × Option (List Nat) :=
  if conn then
    match parseHexString dataInput with
    | .error tok => (logCanMessage ts now "----" "SYS" 0 [parseErrMsg tok] st, none)
    | .ok dataBytes =>
      if writeOk then
        (logCanMessage ts now (padStart (jsToStringHex (sendRawId idInput ty)) 8 '0')
          "TX" dataBytes.length
          (dataBytes.map (fun b => toUpperJs (padStart (jsToStringHex b) 2 '0'))) st,
         some (sendBuffer (sendRawId idInput ty) dataBytes))
      else
        (logCanMessage ts now "----" "SYS" 0 [sendErrorMsg errMsg] st,
         some (sendBuffer (sendRawId idInput ty) dataBytes))
  else (st, none)

/-- `sendCanMessageFromTemplate`: identical flow, reading the template's
fields; its transport-failure path logs `err.message` with no fallback. -/
def sendCanMessageFromTemplate (conn : Bool) (tplId tplType tplData : String)
    (writeOk : Bool) (errMsg ts : String) (now : Rat) (st : LoggerState) :
    LoggerState × Option (List Nat) :=
  if conn then
    match parseHexString tplData with
    | .error tok => (logCanMessage ts now "----" "SYS" 0 [parseErrMsg tok] st, none)
    | .ok dataBytes =>
      if writeOk then
        (logCanMessage ts now (padStart (jsToStringHex (sendRawId tplId tplType)) 8 '0')
          "TX" dataBytes.length
          (dataBytes.map (fun b => toUpperJs (padStart (jsToStringHex b) 2 '0'))) st,
         some (sendBuffer (sendRawId tplId tplType) dataBytes))
      else
        (logCanMessage ts now "----" "SYS" 0 [errMsg] st,
         some (sendBuffer (sendRawId tplId tplType) dataBytes))
  else (st, none)

/-! ### Append sequences -/

/-- The environment-supplied inputs of one `logCanMessage` call. -/
structure AppendInput where
  ts : String
  now : Rat
  idHex : String
  ty : String
  dlc : Nat
  dataBytes : List String

/-- One append. -/
def appendStep (st : LoggerState) (i : AppendInput) : LoggerState :=
  logCanMessage i.ts i.now i.idHex i.ty i.dlc i.dataBytes st

/-- A whole session: a sequence of appends starting from the fresh state. -/
def runLog (inputs : List AppendInput) : LoggerState :=
  inputs.foldl appendStep initState

/-! ### Helper lemmas about `logCanMessage` -/

theorem updAt_map (g : α → β) (f : α → α) (h : ∀ a, g (f a) = g a) :
    ∀ (l : List α) (j : Nat), (updAt l j f).map g = l.map g := by
  intro l
  induction l with
  | nil => intro j; rfl
  | cons x xs ih =>
    intro j
    cases j with
    | zero => simp [updAt, h]
    | succ n => simp [updAt, ih]

theorem updAt_length (f : α → α) :
    ∀ (l : List α) (j : Nat), (updAt l j f).length = l.length := by
  intro l
  induction l with
  | nil => intro j; rfl
  | cons x xs ih =>
    intro j
    cases j with
    | zero => simp [updAt]
    | succ n => simp [updAt, ih]

theorem get?_updAt_ne (f : α → α) :
    ∀ (l : List α) (i j : Nat), i ≠ j → (updAt l j f).get? i = l.get? i := by
  intro l
  induction l with
  | nil => intro i j _; rfl
  | cons x xs ih =>
    intro i j hij
    cases j with
    | zero =>
      cases i with
      | zero => exact absurd rfl hij
      | succ m => simp [updAt]
    | succ n =>
      cases i with
      | zero => simp [updAt]
      | succ m => simpa [updAt] using ih m n (by omega)

theorem get?_updAt_self (f : α → α) :
    ∀ (l : List α) (j : Nat), (updAt l j f).get? j = (l.get? j).map f := by
  intro l
  induction l with
  | nil => intro j; rfl
  | cons x xs ih =>
    intro j
    cases j with
    | zero => simp [updAt]
    | succ n => simpa [updAt] using ih n

theorem logCanMessage_types (ts : String) (now : Rat) (idHex ty : String)
    (dlc : Nat) (db : List String) (st : LoggerState) :
    (logCanMessage ts now idHex ty dlc db st).fullLog.map (·.type) =
      st.fullLog.map (·.type) ++ [ty] := by
  unfold logCanMessage
  cases hk : lookupKey st.uniqueMap (formatCanId idHex ty ++ "|" ++ ty) with
  | none => simp [hk]
  | some j =>
    simp only [hk]
    rw [updAt_map (fun x : LogEntry => x.type)
      (bumpEntry ts dlc (String.intercalate " " db)) (fun a => rfl)]
    simp

theorem logCanMessage_offsets (ts : String) (now : Rat) (idHex ty : String)
    (dlc : Nat) (db : List String) (st : LoggerState) :
    (logCanMessage ts now idHex ty dlc db st).fullLog.map (·.offset) =
      st.fullLog.map (·.offset) ++
        [(now - (if st.fullLog.length = 0 then now else st.startTimeMs.getD now)) / 1000] := by
  unfold logCanMessage
  cases hk : lookupKey st.uniqueMap (formatCanId idHex ty ++ "|" ++ ty) with
  | none => simp [hk]
  | some j =>
    simp only [hk]
    rw [updAt_map (fun x : LogEntry => x.offset)
      (bumpEntry ts dlc (String.intercalate " " db)) (fun a => rfl)]
    simp

theorem logCanMessage_startTime (ts : String) (now : Rat) (idHex ty : String)
    (dlc : Nat) (db : List String) (st : LoggerState) :
    (logCanMessage ts now idHex ty dlc db st).startTimeMs =
      some (if st.fullLog.length = 0 then now else st.startTimeMs.getD now) := by
  unfold logCanMessage
  cases hk : lookupKey st.uniqueMap (formatCanId idHex ty ++ "|" ++ ty) with
  | none => simp [hk]
  | some j => simp [hk]

theorem logCanMessage_length (ts : String) (now : Rat) (idHex ty : String)
    (dlc : Nat) (db : List String) (st : LoggerState) :
    (logCanMessage ts now idHex ty dlc db st).fullLog.length =
      st.fullLog.length + 1 := by
  have h := congrArg List.length (logCanMessage_types ts now idHex ty dlc db st)
  simpa using h

/-! ### C2: are appended log entries ever mutated? -/

/-- C2 counterexample: the first-seen entry for a key is the very object the
unique map references, so a later append with the same key mutates the entry
already in the full log — its timestamp, dlc and data change from
`("t1", 1, "11")` to `("t2", 2, "22 33")`. -/
theorem c2_entry_mutated_counterexample :
    ((logCanMessage "t1" 0 "100" "STD" 1 ["11"] initState).fullLog.map
      (fun e => (e.timestamp, e.dlc, e.data))).get? 0 = some ("t1", 1, "11") ∧
    ((logCanMessage "t2" 5 "100" "STD" 2 ["22", "33"]
        (logCanMessage "t1" 0 "100" "STD" 1 ["11"] initState)).fullLog.map
      (fun e => (e.timestamp, e.dlc, e.data))).get? 0 = some ("t2", 2, "22 33") ∧
    ("t1", 1, ("11" : String)) ≠ ("t2", 2, ("22 33" : String)) := by
  refine ⟨by decide, by decide, by decide⟩

/-- C2 amended: an entry's `id`, `type` and `offset` are never mutated by a
later append, and an entry that is not the unique map's referenced object
for the appended key is not mutated at all; only the aliased first
occurrence of the appended key has its timestamp, dlc, data and count
updated in place. -/
theorem c2_amended_mutation_confined (ts : String) (now : Rat) (idHex ty : String)
    (dlc : Nat) (db : List String) (st : LoggerState) (i : Nat) (e : LogEntry)
    (he : st.fullLog.get? i = some e) :
    ∃ e', (logCanMessage ts now idHex ty dlc db st).fullLog.get? i = some e' ∧
      e'.id = e.id ∧ e'.type = e.type ∧ e'.offset = e.offset ∧
      (lookupKey st.uniqueMap (formatCanId idHex ty ++ "|" ++ ty) ≠ some i → e' = e) := by
  have hi : i < st.fullLog.length := by
    by_contra hcon
    rw [List.get?_eq_none.mpr (by omega)] at he
    exact Option.noConfusion he
  cases hk : lookupKey st.uniqueMap (formatCanId idHex ty ++ "|" ++ ty) with
  | none =>
    simp only [logCanMessage, hk]
    refine ⟨e, ?_, rfl, rfl, rfl, fun _ => rfl⟩
    rw [List.get?_append hi]
    exact he
  | some j =>
    by_cases hij : j = i
    · subst hij
      simp only [logCanMessage, hk]
      refine ⟨bumpEntry ts dlc (String.intercalate " " db) e, ?_, rfl, rfl, rfl,
        fun hne => (hne rfl).elim⟩
      rw [get?_updAt_self, List.get?_append hi, he]
      rfl
    · simp only [logCanMessage, hk]
      refine ⟨e, ?_, rfl, rfl, rfl, fun _ => rfl⟩
      rw [get?_updAt_ne _ _ i j (fun hc => hij hc.symm), List.get?_append hi]
      exact he

/-- Witness for C2's amended theorem, at the state holding one entry. -/
theorem c2_amended_mutation_confined_witness :
    ∃ e', (logCanMessage "t2" 5 "200" "STD" 1 ["22"]
        (logCanMessage "t1" 0 "100" "STD" 1 ["11"] initState)).fullLog.get? 0 =
          some e' ∧
      e'.id = "100" ∧ e'.type = "STD" := by
  obtain ⟨e', h1, h2, h3, -, -⟩ := c2_amended_mutation_confined "t2" 5 "200" "STD" 1
    ["22"] (logCanMessage "t1" 0 "100" "STD" 1 ["11"] initState) 0
    ⟨"t1", (0 - 0) / 1000, "100", "STD", 1, "11", 1⟩ rfl
  exact ⟨e', h1, h2, h3⟩

/-! ### C4: the unique aggregate -/

/-- C4: the unique aggregate is keyed by `id|type`; a first-seen key is
appended at the end of insertion order referencing an entry with
`count = 1`; a repeated key leaves the map (hence every position) unchanged
and updates the referenced entry in place (`count + 1`, new timestamp, dlc,
data, everything else kept).  Concretely, appending keys A, B, A yields the
two aggregate rows `[A, B]` with `A.count = 2` and A's displayed fields
taken from the second A-occurrence. -/
theorem c4_unique_aggregate :
    (∀ (ts : String) (now : Rat) (idHex ty : String) (dlc : Nat)
      (db : List String) (st : LoggerState),
      (logCanMessage ts now idHex ty dlc db st).uniqueMap =
        match lookupKey st.uniqueMap (formatCanId idHex ty ++ "|" ++ ty) with
        | none => st.uniqueMap ++ [(formatCanId idHex ty ++ "|" ++ ty, st.fullLog.length)]
        | some _ => st.uniqueMap) ∧
    (∀ (ts : String) (now : Rat) (idHex ty : String) (dlc : Nat)
      (db : List String) (st : LoggerState),
      lookupKey st.uniqueMap (formatCanId idHex ty ++ "|" ++ ty) = none →
      (logCanMessage ts now idHex ty dlc db st).fullLog.get? st.fullLog.length =
        some ⟨ts, (now - (if st.fullLog.length = 0 then now else st.startTimeMs.getD now)) / 1000,
          formatCanId idHex ty, ty, dlc, String.intercalate " " db, 1⟩) ∧
    (∀ (ts : String) (now : Rat) (idHex ty : String) (dlc : Nat)
      (db : List String) (st : LoggerState) (j : Nat) (e : LogEntry),
      lookupKey st.uniqueMap (formatCanId idHex ty ++ "|" ++ ty) = some j →
      st.fullLog.get? j = some e →
      (logCanMessage ts now idHex ty dlc db st).fullLog.get? j =
        some (bumpEntry ts dlc (String.intercalate " " db) e)) ∧
    ((uniqueEntries (logCanMessage "t3" 9 "100" "STD" 2 ["33", "44"]
        (logCanMessage "t2" 5 "200" "STD" 1 ["22"]
          (logCanMessage "t1" 0 "100" "STD" 1 ["11"] initState)))).map
      (fun e => (e.id, e.type, e.count, e.timestamp, e.dlc, e.data)) =
      [("100", "STD", 2, "t3", 2, "33 44"), ("200", "STD", 1, "t2", 1, "22")]) := by
  refine ⟨?_, ?_, ?_, by decide⟩
  · intro ts now idHex ty dlc db st
    cases hk : lookupKey st.uniqueMap (formatCanId idHex ty ++ "|" ++ ty) with
    | none => simp only [logCanMessage, hk]
    | some j => simp only [logCanMessage, hk]
  · intro ts now idHex ty dlc db st hk
    simp only [logCanMessage, hk]
    exact List.get?_concat_length _ _
  · intro ts now idHex ty dlc db st j e hk he
    have hj : j < st.fullLog.length := by
      by_contra hcon
      rw [List.get?_eq_none.mpr (by omega)] at he
      exact Option.noConfusion he
    simp only [logCanMessage, hk]
    rw [get?_updAt_self, List.get?_append hj, he]
    rfl

/-! ### C9: session offsets -/

theorem foldl_appendStep_offsets (inputs : List AppendInput) :
    ∀ (st : LoggerState) (a : Rat), st.startTimeMs = some a → st.fullLog.length ≠ 0 →
    ((inputs.foldl appendStep st).fullLog.map (fun e => e.offset) =
      st.fullLog.map (fun e => e.offset) ++
        inputs.map (fun i => (i.now - a) / 1000)) ∧
    (inputs.foldl appendStep st).startTimeMs = some a ∧
    (inputs.foldl appendStep st).fullLog.length ≠ 0 := by
  induction inputs with
  | nil =>
    intro st a h1 h2
    exact ⟨by simp, h1, h2⟩
  | cons i is ih =>
    intro st a h1 h2
    have hif : (if st.fullLog.length = 0 then i.now else st.startTimeMs.getD i.now) = a := by
      rw [if_neg h2, h1]
      rfl
    have hstart : (appendStep st i).startTimeMs = some a := by
      rw [appendStep, logCanMessage_startTime, hif]
    have hlen : (appendStep st i).fullLog.length ≠ 0 := by
      rw [appendStep, logCanMessage_length]
      omega
    obtain ⟨r1, r2, r3⟩ := ih (appendStep st i) a hstart hlen
    refine ⟨?_, by simpa using r2, by simpa using r3⟩
    rw [List.foldl_cons, r1, appendStep, logCanMessage_offsets, hif]
    simp

/-- C9: over any append sequence from the fresh state, the first entry's
offset is `0` and entry `j`'s offset is the elapsed `performance.now()` time
in seconds since the first append (later appends never change a stored
offset). -/
theorem c9_session_offsets (inputs : List AppendInput) :
    (runLog inputs).fullLog.map (fun e => e.offset) =
      inputs.map (fun i => (i.now - (((inputs.head?).map (fun i0 => i0.now)).getD 0)) / 1000) ∧
    ∀ e, (runLog inputs).fullLog.head? = some e → e.offset = 0 := by
  have hmain : (runLog inputs).fullLog.map (fun e => e.offset) =
      inputs.map (fun i => (i.now - (((inputs.head?).map (fun i0 => i0.now)).getD 0)) / 1000) := by
    cases inputs with
    | nil => rfl
    | cons i0 rest =>
      have h0start : (appendStep initState i0).startTimeMs = some i0.now := by
        rw [appendStep, logCanMessage_startTime]
        rfl
      have h0off : (appendStep initState i0).fullLog.map (fun e => e.offset) =
          [(i0.now - i0.now) / 1000] := by
        rw [appendStep, logCanMessage_offsets]
        rfl
      have h0len : (appendStep initState i0).fullLog.length ≠ 0 := by
        rw [appendStep, logCanMessage_length]
        omega
      obtain ⟨r1, -, -⟩ :=
        foldl_appendStep_offsets rest (appendStep initState i0) i0.now h0start h0len
      rw [runLog, List.foldl_cons, r1, h0off]
      simp
  refine ⟨hmain, ?_⟩
  intro e he
  have h1 : ((runLog inputs).fullLog.map (fun e => e.offset)).head? = some e.offset := by
    rw [List.head?_map, he]
    rfl
  rw [hmain] at h1
  cases inputs with
  | nil => exact Option.noConfusion h1
  | cons i0 rest =>
    have : some ((i0.now - i0.now) / 1000) = some e.offset := by simpa using h1
    have h2 := Option.some.inj this
    rw [← h2]
    simp

/-! ### C7 and C8: the send path -/

theorem logCanMessage_last (ts : String) (now : Rat) (idHex ty : String)
    (dlc : Nat) (db : List String) (st : LoggerState) :
    ∃ c, (logCanMessage ts now idHex ty dlc db st).fullLog.getLast? =
      some ⟨ts, (now - (if st.fullLog.length = 0 then now else st.startTimeMs.getD now)) / 1000,
        formatCanId idHex ty, ty, dlc, String.intercalate " " db, c⟩ := by
  cases hk : lookupKey st.uniqueMap (formatCanId idHex ty ++ "|" ++ ty) with
  | none =>
    refine ⟨1, ?_⟩
    simp only [logCanMessage, hk]
    exact List.getLast?_concat _
  | some j =>
    have hlen : ∀ e : LogEntry, (updAt (st.fullLog ++ [e]) j
        (bumpEntry ts dlc (String.intercalate " " db))).length - 1 = st.fullLog.length := by
      intro e
      rw [updAt_length]
      simp
    by_cases hj : j = st.fullLog.length
    · refine ⟨1, ?_⟩
      simp only [logCanMessage, hk]
      rw [List.getLast?_eq_get?, hlen, ← hj, get?_updAt_self, hj,
        List.get?_concat_length]
      rfl
    · refine ⟨0, ?_⟩
      simp only [logCanMessage, hk]
      rw [List.getLast?_eq_get?, hlen,
        get?_updAt_ne _ _ st.fullLog.length j (fun hc => hj hc.symm),
        List.get?_concat_length]

/-- C7: a `TX` row is appended exactly when the transport write succeeds —
on the two other outcomes (hex-parse failure before any transfer, transfer
rejection) a `SYS` row is appended instead, for the UI send and the template
send alike; the transfer-rejection `SYS` row carries
`err.message || 'Send Error'`. -/
theorem c7_tx_iff_write_ok :
    (∀ (conn : Bool) (idInput dataInput ty : String) (writeOk : Bool)
      (errMsg ts : String) (now : Rat) (st : LoggerState),
      (sendCanMessage conn idInput dataInput ty writeOk errMsg ts now st).1.fullLog.map
          (fun e => e.type) =
        st.fullLog.map (fun e => e.type) ++
          (if conn then
            match parseHexString dataInput with
            | .error _ => ["SYS"]
            | .ok _ => if writeOk then ["TX"] else ["SYS"]
          else [])) ∧
    (∀ (conn : Bool) (tplId tplType tplData : String) (writeOk : Bool)
      (errMsg ts : String) (now : Rat) (st : LoggerState),
      (sendCanMessageFromTemplate conn tplId tplType tplData writeOk errMsg ts
          now st).1.fullLog.map (fun e => e.type) =
        st.fullLog.map (fun e => e.type) ++
          (if conn then
            match parseHexString tplData with
            | .error _ => ["SYS"]
            | .ok _ => if writeOk then ["TX"] else ["SYS"]
          else [])) ∧
    (∀ (idInput dataInput ty errMsg ts : String) (now : Rat) (st : LoggerState)
      (bs : List Int), parseHexString dataInput = .ok bs →
      ∃ c off,
        (sendCanMessage true idInput dataInput ty false errMsg ts now st).1.fullLog.getLast? =
          some ⟨ts, off, "----", "SYS", 0, sendErrorMsg errMsg, c⟩) := by
  refine ⟨?_, ?_, ?_⟩
  · intro conn idInput dataInput ty writeOk errMsg ts now st
    cases conn with
    | false => simp [sendCanMessage]
    | true =>
      cases hp : parseHexString dataInput with
      | error tok =>
        simp only [sendCanMessage, hp, if_true]
        rw [logCanMessage_types]
      | ok bs =>
        cases writeOk with
        | false =>
          simp only [sendCanMessage, hp, if_true]
          rw [if_neg Bool.false_ne_true, if_neg Bool.false_ne_true,
            logCanMessage_types]
        | true =>
          simp only [sendCanMessage, hp, if_true]
          rw [logCanMessage_types]
  · intro conn tplId tplType tplData writeOk errMsg ts now st
    cases conn with
    | false => simp [sendCanMessageFromTemplate]
    | true =>
      cases hp : parseHexString tplData with
      | error tok =>
        simp only [sendCanMessageFromTemplate, hp, if_true]
        rw [logCanMessage_types]
      | ok bs =>
        cases writeOk with
        | false =>
          simp only [sendCanMessageFromTemplate, hp, if_true]
          rw [if_neg Bool.false_ne_true, if_neg Bool.false_ne_true,
            logCanMessage_types]
        | true =>
          simp only [sendCanMessageFromTemplate, hp, if_true]
          rw [logCanMessage_types]
  · intro idInput dataInput ty errMsg ts now st bs hp
    simp only [sendCanMessage, hp, if_true]
    rw [if_neg Bool.false_ne_true]
    obtain ⟨c, hc⟩ := logCanMessage_last ts now "----" "SYS" 0 [sendErrorMsg errMsg] st
    refine ⟨c,
      (now - (if st.fullLog.length = 0 then now else st.startTimeMs.getD now)) / 1000, ?_⟩
    rw [hc]
    rfl

/-- Witness for C7's third part at a concrete failed transfer. -/
theorem c7_tx_iff_write_ok_witness :
    ∃ c off,
      (sendCanMessage true "1a" "11" "STD" false "boom" "t0" 0 initState).1.fullLog.getLast? =
        some ⟨"t0", off, "----", "SYS", 0, sendErrorMsg "boom", c⟩ :=
  c7_tx_iff_write_ok.2.2 "1a" "11" "STD" "boom" "t0" 0 initState [17] rfl

/-- C8 counterexample: sending with the type string `'SYS'` does not fail —
no `InvalidKind` error exists anywhere in the code.  The frame is encoded
with the Extended convention (bit 31 set: buffer bytes
`[0x23, 0x01, 0x00, 0x80]` for id `0x123`) and handed to the transport, and
the send is logged as an ordinary `TX` row. -/
theorem c8_no_invalidkind_counterexample :
    (sendCanMessage true "123" "11" "SYS" true "" "t0" 0 initState).2 =
      some [35, 1, 0, 128, 1, 17] ∧
    (sendCanMessage true "123" "11" "SYS" true "" "t0" 0 initState).1.fullLog.map
      (fun e => e.type) = ["TX"] := by
  refine ⟨by decide, by decide⟩

/-- C8 amended: the send path never rejects a kind — it only distinguishes
`'STD'` from everything else, so a frame whose kind is not Standard (the
pseudo-kind System included) is encoded and sent exactly as an Extended
frame. -/
theorem c8_amended_nonstd_sends_as_ext (conn : Bool)
    (idInput dataInput ty : String) (writeOk : Bool) (errMsg ts : String)
    (now : Rat) (st : LoggerState) (hty : ty ≠ "STD") :
    sendCanMessage conn idInput dataInput ty writeOk errMsg ts now st =
      sendCanMessage conn idInput dataInput "EXT" writeOk errMsg ts now st := by
  unfold sendCanMessage sendRawId
  rw [if_neg hty, if_neg (by decide : ¬("EXT" = "STD"))]

/-- Witness for C8's amended theorem at the `'SYS'` input. -/
theorem c8_amended_nonstd_sends_as_ext_witness :
    sendCanMessage true "123" "11" "SYS" true "" "t0" 0 initState =
      sendCanMessage true "123" "11" "EXT" true "" "t0" 0 initState :=
  c8_amended_nonstd_sends_as_ext true "123" "11" "SYS" true "" "t0" 0 initState
    (by decide)

/-! ### C6: parseHexString -/

theorem parseTokens_spec (ts : List String) :
    parseTokens ts =
      match ts.find? (fun t => (jsParseIntHex t).isNone) with
      | some t => .error t
      | none => .ok (ts.map (fun t => (jsParseIntHex t).getD 0)) := by
  induction ts with
  | nil => rfl
  | cons t ts ih =>
    cases hp : jsParseIntHex t with
    | none =>
      rw [List.find?_cons_of_pos _ (by simp [hp])]
      simp [parseTokens, hp]
    | some v =>
      rw [List.find?_cons_of_neg _ (by simp [hp])]
      simp only [parseTokens, hp]
      rw [ih]
      cases hf : ts.find? (fun t => (jsParseIntHex t).isNone) with
      | some u => simp
      | none => simp [hp]

/-- C6: `parseHexString` splits its input on runs of whitespace; if any
token fails to parse as hex the whole call fails carrying the first such
token and no byte list is produced, otherwise it returns every token's
value; `"11 22 33"` parses to `[0x11, 0x22, 0x33]` and `"11 zz"` fails on
`"zz"`. -/
theorem c6_parse_byte_string :
    parseHexString "11 22 33" = .ok [17, 34, 51] ∧
    parseHexString "11 zz" = .error "zz" ∧
    (∀ input : String,
      parseHexString input =
        match (hexTokens input).find? (fun t => (jsParseIntHex t).isNone) with
        | some t => .error t
        | none => .ok ((hexTokens input).map (fun t => (jsParseIntHex t).getD 0))) :=
  ⟨rfl, rfl, fun input => parseTokens_spec (hexTokens input)⟩

/-! ### C3 and C10: formatCanId -/

theorem natToHexAux_length (fuel : Nat) :
    ∀ n k, n < 16 ^ k → (natToHexAux fuel n).length ≤ k := by
  induction fuel with
  | zero => intro n k _; exact Nat.zero_le k
  | succ fuel ih =>
    intro n k hn
    cases n with
    | zero => simp [natToHexAux]
    | succ m =>
      have hk : k ≠ 0 := by
        intro h
        subst h
        simp at hn
      obtain ⟨k', rfl⟩ : ∃ k', k = k' + 1 := ⟨k - 1, by omega⟩
      have h16 : 16 ^ (k' + 1) = 16 ^ k' * 16 := by rw [Nat.pow_succ]
      have hdiv : (m + 1) / 16 < 16 ^ k' := Nat.div_lt_of_lt_mul (by omega)
      have := ih ((m + 1) / 16) k' hdiv
      simp only [natToHexAux, List.length_append, List.length_cons, List.length_nil]
      omega

theorem natToHex_length_le {n k : Nat} (hk : 1 ≤ k) (hn : n < 16 ^ k) :
    (natToHex n).data.length ≤ k := by
  unfold natToHex
  split
  · simpa using hk
  · exact natToHexAux_length n n k hn

theorem jsAnd_with_small_mask (a : Int) (m : Nat) (hm : m < 2147483648) :
    jsAnd a (m : Int) = ((toUint32 a &&& m : Nat) : Int) ∧ toUint32 a &&& m ≤ m := by
  have hle : toUint32 a &&& m ≤ m := Nat.and_le_right
  have hmu : toUint32 (m : Int) = m := by
    unfold toUint32
    omega
  refine ⟨?_, hle⟩
  simp only [jsAnd, toInt32, hmu]
  split
  · omega
  · omega

theorem rendered_hex_width (r : Int) (m w : Nat) (hm31 : m < 2147483648)
    (hmw : m < 16 ^ w) (hw : 1 ≤ w) :
    (toUpperJs (padStart (jsToStringHex (jsAnd r (m : Int))) w '0')).length = w := by
  obtain ⟨hand, hle⟩ := jsAnd_with_small_mask r m hm31
  rw [hand]
  have hlen : (natToHex (toUint32 r &&& m)).data.length ≤ w :=
    natToHex_length_le hw (by omega)
  have hstr : jsToStringHex ((toUint32 r &&& m : Nat) : Int) =
      natToHex (toUint32 r &&& m) := by
    unfold jsToStringHex
    rw [if_neg (by omega)]
    simp
  rw [hstr]
  simp only [toUpperJs, padStart, String.length, List.length_map, List.length_append,
    List.length_replicate]
  omega

theorem formatCanId_width (s ty : String) (h1 : ty ≠ "SYS") :
    (formatCanId s ty).length = if ty = "STD" then 3 else 8 := by
  unfold formatCanId
  simp only [if_neg h1]
  by_cases h2 : ty = "STD"
  · simp only [if_pos h2]
    rw [show (0x7FF : Int) = ((2047 : Nat) : Int) from by norm_num]
    exact rendered_hex_width _ 2047 3 (by norm_num) (by norm_num) (by norm_num)
  · simp only [if_neg h2]
    rw [show (0x1FFFFFFF : Int) = ((536870911 : Nat) : Int) from by norm_num]
    exact rendered_hex_width _ 536870911 8 (by norm_num) (by norm_num) (by norm_num)

/-- C3: `formatCanId` uppercases `SYS` ids unchanged; for the other kinds it
parses the id as hex with `0` substituted on parse failure, masks to the
kind's width and renders fixed-width zero-padded uppercase hex —
width 3 for `'STD'`, width 8 otherwise; `"7ff"` renders as `"7FF"`,
`"1fffffff"` as `"1FFFFFFF"`, and the unparseable `"zz"` as `"000"`. -/
theorem c3_format_id :
    formatCanId "7ff" "STD" = "7FF" ∧
    formatCanId "1fffffff" "EXT" = "1FFFFFFF" ∧
    formatCanId "zz" "STD" = "000" ∧
    (∀ s, formatCanId s "SYS" = toUpperJs s) ∧
    (∀ s, jsParseIntHex s = none →
      formatCanId s "STD" = "000" ∧ formatCanId s "EXT" = "00000000") ∧
    (∀ s, (formatCanId s "STD").length = 3 ∧ (formatCanId s "EXT").length = 8) := by
  refine ⟨by decide, by decide, by decide, fun s => rfl, ?_, ?_⟩
  · intro s hs
    constructor
    · unfold formatCanId
      rw [if_neg (by decide), hs]
      decide
    · unfold formatCanId
      rw [if_neg (by decide), hs]
      decide
  · intro s
    exact ⟨by simpa using formatCanId_width s "STD" (by decide),
      by simpa using formatCanId_width s "EXT" (by decide)⟩

/-- C10: every type other than `'SYS'` and `'STD'` — in particular the
locally-originated `'TX'` — is formatted with the Extended convention
(29-bit mask, 8 uppercase hex digits), so a sent Standard frame with id
`0x7FF` is displayed in the log as `"000007FF"`, not `"7FF"`. -/
theorem c10_tx_rendered_as_extended :
    (∀ (idHex ty : String), ty ≠ "SYS" → ty ≠ "STD" →
      formatCanId idHex ty = formatCanId idHex "EXT") ∧
    (sendCanMessage true "7ff" "11" "STD" true "" "t0" 0 initState).1.fullLog.map
      (fun e => e.id) = ["000007FF"] ∧
    ("000007FF" : String) ≠ "7FF" := by
  refine ⟨?_, by decide, by decide⟩
  intro idHex ty h1 h2
  unfold formatCanId
  simp only [if_neg h1, if_neg h2, if_neg (show ¬("EXT" = "SYS") from by decide),
    if_neg (show ¬("EXT" = "STD") from by decide)]

end CanViewer
